import Mathlib

/-!
Verification of the neural-network core of the pilsen25 repository.

The modelled source is `src/components/NeuralNet.tsx` (mulberry32 PRNG,
seeded weight generation, forward pass with tanh) and
`src/components/Landing.tsx` (sigmoid decision between the two candidates).

Numeric conventions of the model:
* JS 32-bit integer operations (`Math.imul`, `^`, `|`, `>>>`) act on the
  unsigned residue modulo 2^32; two's-complement signedness is irrelevant to
  the bit patterns, so all states and intermediate values are `Nat` reduced
  modulo 2^32 at each operation, exactly as `ToInt32`/`ToUint32` do.
* The mulberry32 closure's persistent `seed` variable is a JS double that is
  never truncated; it is modelled as an exact `Nat` (doubles are exact on the
  integers used here).
* PRNG outputs `(... >>> 0) / 4294967296` are exact rationals.
* Weight/bias/activation arithmetic is modelled over `ℝ` (the literal `0.1`
  as `1/10`, `Math.sqrt`/`Math.tanh`/`Math.exp` as their real counterparts).
* For the decision handler of Landing.tsx, JS numbers including `NaN` are
  modelled by `Option ℝ` with `none` for NaN: arithmetic propagates `none`
  and `>` is false whenever an operand is `none`, as in IEEE/JS.
-/

namespace Pilsen

/-- The modulus 2^32, the modulus of JS 32-bit integer coercions (`ToInt32`/`ToUint32`). -/
def M32 : ℕ := 4294967296

/-- JS `Math.imul a b`: 32-bit multiplication, on unsigned residues. -/
def imul (a b : ℕ) : ℕ := a * b % M32

/-- JS `a ^ b` (bitwise xor), operands coerced to 32 bits. -/
def xor32 (a b : ℕ) : ℕ := Nat.xor (a % M32) (b % M32)

/-- JS `a | b` (bitwise or), operands coerced to 32 bits. -/
def or32 (a b : ℕ) : ℕ := Nat.lor (a % M32) (b % M32)

/-- JS `a >>> n`: coerce to unsigned 32 bits, then shift right. -/
def shr (a n : ℕ) : ℕ := a % M32 / 2 ^ n

/-- The constant `0x6D2B79F5` added to the mulberry32 state on every call. -/
def inc : ℕ := 0x6d2b79f5

/-- The output scrambling of one mulberry32 call, applied to the updated
state `s`:
`t = Math.imul(t ^ (t >>> 15), t | 1);`
`t ^= t + Math.imul(t ^ (t >>> 7), t | 61);`
`return (t ^ (t >>> 14)) >>> 0` (before the division). -/
def mb32out (s : ℕ) : ℕ :=
  let t1 := imul (xor32 s (shr s 15)) (or32 s 1)
  let t2 := xor32 t1 (t1 + imul (xor32 t1 (shr t1 7)) (or32 t1 61))
  xor32 t2 (shr t2 14)

/-- The value in `[0,1)` produced from state `s`:
`((t ^ (t >>> 14)) >>> 0) / 4294967296`, an exact rational. -/
def rngOut (s : ℕ) : ℚ := (mb32out s : ℚ) / (M32 : ℚ)

/-- One call of the closure returned by `mulberry32(seed)` in NeuralNet.tsx:
the state is first advanced by `inc` (`seed += 0x6d2b79f5`), then the output
is computed from the new state.  Returns (value, new state). -/
def mulberry32Step (seed : ℕ) : ℚ × ℕ := (rngOut (seed + inc), seed + inc)

/-- One `{W, b}` record of the `weights` memo: a weight matrix (list of rows)
and a bias vector. -/
structure LayerParams where
  W : List (List ℝ)
  b : List ℝ

/-- JS `Array.from({length: n}, () => f(rng()))`: a list of `n` entries built in
index order, each consuming one PRNG draw; returns the list and the PRNG
state after the last draw. -/
def genList : ℕ → (ℚ → ℝ) → ℕ → List ℝ × ℕ
  | 0, _, st => ([], st)
  | n + 1, f, st =>
    let p := mulberry32Step st
    let rest := genList n f p.2
    (f p.1 :: rest.1, rest.2)

/-- The weight matrix of one transition:
`Array.from({length: outN}, () => Array.from({length: inN}, () => ...))` —
`o` rows built in order, each row `inN` entries, so the PRNG draws are
consumed in row-major order. -/
def genMat : ℕ → ℕ → (ℚ → ℝ) → ℕ → List (List ℝ) × ℕ
  | 0, _, _, st => ([], st)
  | o + 1, inN, f, st =>
    let row := genList inN f st
    let rest := genMat o inN f row.2
    (row.1 :: rest.1, rest.2)

/-- A weight entry: `(rng() * 2 - 1) * scale` with `scale = Math.sqrt(1 / inN)`. -/
noncomputable def weightFun (inN : ℕ) : ℚ → ℝ :=
  fun u => ((u * 2 - 1 : ℚ) : ℝ) * Real.sqrt (1 / (inN : ℝ))

/-- A bias entry: `(rng() * 2 - 1) * 0.1`. -/
noncomputable def biasFun : ℚ → ℝ :=
  fun u => ((u * 2 - 1 : ℚ) : ℝ) * (1 / 10)

/-- The loop of the `weights` memo in NeuralNet.tsx over `fullCounts`: for
each adjacent pair `(inN, outN)` it fills the weight matrix (row-major), then
the bias vector, threading the single PRNG state through; with fewer than two
layer counts the loop body never runs and the list of transitions is empty. -/
noncomputable def genTransitions : List ℕ → ℕ → List LayerParams × ℕ
  | inN :: outN :: rest, st =>
    let Wp := genMat outN inN (weightFun inN) st
    let bp := genList outN biasFun Wp.2
    let restp := genTransitions (outN :: rest) bp.2
    (⟨Wp.1, bp.1⟩ :: restp.1, restp.2)
  | _, st => ([], st)

/-- The seed of the `weights` memo:
`layers.reduce((s, v, i) => s + (i + 1) * v, inputVector.length * 131)`. -/
def seedOf (inputLen : ℕ) (layers : List ℕ) : ℕ :=
  (List.enum layers).foldl (fun s p => s + (p.1 + 1) * p.2) (inputLen * 131)

/-- The `weights` memo of NeuralNet.tsx: `fullCounts = [inputVector.length,
...layers]`, seeded by `seedOf`. -/
noncomputable def weightsImpl (layers : List ℕ) (inputVector : List ℝ) : List LayerParams :=
  (genTransitions (inputVector.length :: layers) (seedOf inputVector.length layers)).1

/-- The helper `const tanh = (x) => Math.tanh(x)` in NeuralNet.tsx. -/
noncomputable def tanh (x : ℝ) : ℝ := Real.tanh x

/-- The helper `dot(a, b) = a.reduce((s, v, i) => s + v * b[i], 0)`.  The fold runs over
the indices of `a`; whenever `b.length ≥ a.length` (the only shapes reachable
through well-formed parameters) this is the sum of pairwise products below. -/
def dot (a b : List ℝ) : ℝ := (List.zipWith (fun x y => x * y) a b).sum

/-- The helper `matVecMul(W, x, b?) = W.map((row, i) => dot(row, x) + (b ? b[i] : 0))`. -/
def matVecMul (W : List (List ℝ)) (x : List ℝ) (b : Option (List ℝ)) : List ℝ :=
  (List.enum W).map fun p =>
    dot p.2 x + (match b with | some bv => bv.getD p.1 0 | none => 0)

/-- The helper `applyActivation(x, fn) = x.map(fn)`. -/
def applyActivation (x : List ℝ) (fn : ℝ → ℝ) : List ℝ := x.map fn

/-- The loop of `allActivations` from the activation of the current layer
onward: each step pushes `applyActivation(matVecMul(W_l, acts[l], b_l), tanh)`. -/
noncomputable def forwardFrom : List LayerParams → List ℝ → List (List ℝ)
  | [], _ => []
  | p :: rest, a =>
    let a2 := applyActivation (matVecMul p.W a (some p.b)) tanh
    a2 :: forwardFrom rest a2

/-- The `allActivations` memo of NeuralNet.tsx:
`acts = [inputVector.slice()]` (a copy of the input), then one tanh layer per
transition; no sigmoid is applied anywhere, including the last layer. -/
noncomputable def allActivations (ws : List LayerParams) (input : List ℝ) : List (List ℝ) :=
  input :: forwardFrom ws input

/-- The function `sigmoid(x) = 1 / (1 + Math.exp(-x))` from Landing.tsx. -/
noncomputable def sigmoid (x : ℝ) : ℝ := 1 / (1 + Real.exp (-x))

/-- JS unary minus on NaN-propagating numbers (`none` models NaN). -/
def jneg : Option ℝ → Option ℝ := Option.map fun x => -x

/-- JS `Math.exp` on NaN-propagating numbers. -/
noncomputable def jexp : Option ℝ → Option ℝ := Option.map Real.exp

/-- JS `+` on NaN-propagating numbers. -/
def jadd : Option ℝ → Option ℝ → Option ℝ
  | some x, some y => some (x + y)
  | _, _ => none

/-- JS `/` on NaN-propagating numbers (denominators reached through
`jsigmoid` are the positive reals `1 + exp(-x)`, so the JS `1/0 = Infinity`
case never arises). -/
noncomputable def jdiv : Option ℝ → Option ℝ → Option ℝ
  | some x, some y => some (x / y)
  | _, _ => none

/-- The `sigmoid` of Landing.tsx lifted to NaN-propagating JS numbers:
`1 / (1 + Math.exp(-x))` with NaN flowing through every operation. -/
noncomputable def jsigmoid (x : Option ℝ) : Option ℝ :=
  jdiv (some 1) (jadd (some 1) (jexp (jneg x)))

/-- JS `>`: false whenever either operand is NaN. -/
def jgt : Option ℝ → Option ℝ → Prop
  | some x, some y => x > y
  | _, _ => False

noncomputable instance jgtDec : (a b : Option ℝ) → Decidable (jgt a b)
  | some x, some y => inferInstanceAs (Decidable (x > y))
  | some _, none => inferInstanceAs (Decidable False)
  | none, some _ => inferInstanceAs (Decidable False)
  | none, none => inferInstanceAs (Decidable False)

/-- The `onResult` handler of Landing.tsx over NaN-propagating JS numbers:
`left = sigmoid(vec[0]); right = sigmoid(vec[1]);
if (left > right) setWinnerID(id1) else setWinnerID(id2)`.
An out-of-range read (`vec[0]` on a short vector) yields `undefined`, which
every arithmetic step turns into NaN, modelled by `none`. -/
noncomputable def jsDecide (vec : List (Option ℝ)) (id1 id2 : ℕ) : ℕ :=
  if jgt (jsigmoid (vec.getD 0 none)) (jsigmoid (vec.getD 1 none)) then id1 else id2

/-- The same handler restricted to real (non-NaN) final layers. -/
noncomputable def landingDecide (vec : List ℝ) (id1 id2 : ℕ) : ℕ :=
  jsDecide (vec.map some) id1 id2

/-- Spec-side reading of the draw order: the `k`-th value (0-based) drawn
from a fresh `mulberry32(seed)` closure. -/
def specDraw (seed k : ℕ) : ℚ := rngOut (seed + (k + 1) * inc)

/-- Spec-side reading of the draw order: the number of PRNG draws consumed
before transition `l` begins (each earlier transition `(inN, outN)` consumes
`outN * inN` weight draws and `outN` bias draws). -/
def drawsBefore : List ℕ → ℕ → ℕ
  | inN :: outN :: rest, l + 1 => outN * inN + outN + drawsBefore (outN :: rest) l
  | _, _ => 0

/-- Two invocations of the `weights` computation with the same topology and
seed, as happens across re-renders: each invocation constructs a fresh
`mulberry32(seed)` closure (`const rng = mulberry32(seed)`), so no PRNG state
survives from one invocation to the next. -/
noncomputable def generateTwice (counts : List ℕ) (seed : ℕ) :
    List LayerParams × List LayerParams :=
  ((genTransitions counts seed).1, (genTransitions counts seed).1)

/-- A store of JS arrays, addressed by reference. -/
def Store : Type := ℕ → List ℝ

/-- The evaluation `allActivations` with the caller's input array held in a store behind
reference `r`: the body reads the array once and copies it
(`inputVector.slice()`); every later step allocates fresh arrays
(`map` in `matVecMul`/`applyActivation`, `push` onto the local `acts`), and
nothing in the body writes through any reference, so the store comes back
unchanged. -/
noncomputable def allActivationsStore (ws : List LayerParams) (σ : Store) (r : ℕ) :
    List (List ℝ) × Store :=
  (allActivations ws (σ r), σ)

/-! ### Helper lemmas: PRNG-consuming list and matrix builders -/

theorem genList_length (n : ℕ) (f : ℚ → ℝ) (st : ℕ) : (genList n f st).1.length = n := by
  induction n generalizing st with
  | zero => rfl
  | succ m ih => simp [genList, ih]

theorem genList_state (n : ℕ) (f : ℚ → ℝ) (st : ℕ) :
    (genList n f st).2 = st + n * inc := by
  induction n generalizing st with
  | zero => simp [genList]
  | succ m ih => simp [genList, mulberry32Step, ih]; ring

theorem genList_getD (n : ℕ) (f : ℚ → ℝ) (st i : ℕ) (h : i < n) :
    (genList n f st).1.getD i 0 = f (rngOut (st + (i + 1) * inc)) := by
  induction n generalizing st i with
  | zero => omega
  | succ m ih =>
    cases i with
    | zero => simp [genList, mulberry32Step]
    | succ j =>
      have harg : st + inc + (j + 1) * inc = st + (j + 1 + 1) * inc := by ring
      simp only [genList, mulberry32Step, List.getD_cons_succ]
      rw [ih (st + inc) j (by omega), harg]

theorem genMat_length (o inN : ℕ) (f : ℚ → ℝ) (st : ℕ) :
    (genMat o inN f st).1.length = o := by
  induction o generalizing st with
  | zero => rfl
  | succ m ih => simp [genMat, ih]

theorem genMat_state (o inN : ℕ) (f : ℚ → ℝ) (st : ℕ) :
    (genMat o inN f st).2 = st + o * inN * inc := by
  induction o generalizing st with
  | zero => simp [genMat]
  | succ m ih => simp [genMat, genList_state, ih]; ring

theorem genMat_row (o inN : ℕ) (f : ℚ → ℝ) (st r : ℕ) (h : r < o) :
    (genMat o inN f st).1.getD r [] = (genList inN f (st + r * inN * inc)).1 := by
  induction o generalizing st r with
  | zero => omega
  | succ m ih =>
    cases r with
    | zero => simp [genMat]
    | succ j =>
      have harg : st + inN * inc + j * inN * inc = st + (j + 1) * inN * inc := by ring
      simp only [genMat, List.getD_cons_succ]
      rw [genList_state, ih (st + inN * inc) j (by omega), harg]

theorem genTransitions_length : ∀ (counts : List ℕ) (st : ℕ),
    (genTransitions counts st).1.length = counts.length - 1
  | [], _ => by simp [genTransitions]
  | [_], _ => by simp [genTransitions]
  | _ :: b :: r, st => by
    simp only [genTransitions, List.length_cons]
    rw [genTransitions_length (b :: r)]
    simp

theorem genTransitions_Wlengths : ∀ (counts : List ℕ) (st : ℕ),
    ((genTransitions counts st).1).map (fun p => p.W.length) = counts.tail
  | [], _ => by simp [genTransitions]
  | [_], _ => by simp [genTransitions]
  | a :: b :: r, st => by
    simp only [genTransitions, List.map_cons]
    rw [genTransitions_Wlengths (b :: r)]
    simp [genMat_length]

theorem genTransitions_getD : ∀ (counts : List ℕ) (st l : ℕ), l + 1 < counts.length →
    (genTransitions counts st).1.getD l ⟨[], []⟩ =
      ⟨(genMat (counts.getD (l + 1) 0) (counts.getD l 0) (weightFun (counts.getD l 0))
          (st + drawsBefore counts l * inc)).1,
        (genList (counts.getD (l + 1) 0) biasFun
          (st + (drawsBefore counts l + counts.getD (l + 1) 0 * counts.getD l 0) * inc)).1⟩
  | [], _, _, h => by simp at h
  | [_], _, _, h => by simp at h
  | a :: b :: r, st, 0, _ => by
    simp only [genTransitions, List.getD_cons_zero, List.getD_cons_succ, drawsBefore]
    rw [genMat_state]
    norm_num
  | a :: b :: r, st, l + 1, h => by
    have hst2 : (genList b biasFun (genMat b a (weightFun a) st).2).2
        = st + (b * a + b) * inc := by
      rw [genList_state, genMat_state]; ring
    have h1 : st + (b * a + b) * inc + drawsBefore (b :: r) l * inc
        = st + (b * a + b + drawsBefore (b :: r) l) * inc := by ring
    have h2 : st + (b * a + b) * inc
          + (drawsBefore (b :: r) l + (b :: r).getD (l + 1) 0 * (b :: r).getD l 0) * inc
        = st + (b * a + b + drawsBefore (b :: r) l
          + (b :: r).getD (l + 1) 0 * (b :: r).getD l 0) * inc := by ring
    simp only [genTransitions, List.getD_cons_succ, drawsBefore]
    rw [genTransitions_getD (b :: r) _ l (by simpa using h), hst2, h1, h2]
    norm_num [Nat.add_assoc]

/-! ### Helper lemmas: forward pass -/

theorem matVecMul_length (W : List (List ℝ)) (x : List ℝ) (b : Option (List ℝ)) :
    (matVecMul W x b).length = W.length := by
  simp [matVecMul, List.enum_length]

theorem matVecMul_getD (W : List (List ℝ)) (x : List ℝ) (bv : List ℝ) (i : ℕ)
    (h : i < W.length) :
    (matVecMul W x (some bv)).getD i 0 = dot (W.getD i []) x + bv.getD i 0 := by
  rcases hW : W[i]? with _ | row
  · rw [List.getElem?_eq_none_iff] at hW; omega
  · have : (matVecMul W x (some bv))[i]? = some (dot row x + bv.getD i 0) := by
      simp [matVecMul, List.getElem?_enum, hW]
    simp [List.getD_eq_getElem?_getD, this, List.getD_eq_getElem?_getD, hW]

theorem allActivations_length (ws : List LayerParams) (input : List ℝ) :
    (allActivations ws input).length = ws.length + 1 := by
  suffices h : ∀ (ws : List LayerParams) (a : List ℝ), (forwardFrom ws a).length = ws.length by
    simp [allActivations, h]
  intro ws
  induction ws with
  | nil => intro a; rfl
  | cons p rest ih => intro a; simp [forwardFrom, ih]

theorem allActivations_zero (ws : List LayerParams) (input : List ℝ) :
    (allActivations ws input).getD 0 [] = input := rfl

theorem allActivations_step (ws : List LayerParams) (input : List ℝ) (l : ℕ)
    (h : l < ws.length) :
    (allActivations ws input).getD (l + 1) [] =
      applyActivation
        (matVecMul (ws.getD l ⟨[], []⟩).W ((allActivations ws input).getD l [])
          (some (ws.getD l ⟨[], []⟩).b))
        tanh := by
  induction ws generalizing input l with
  | nil => simp at h
  | cons p rest ih =>
    cases l with
    | zero => rfl
    | succ j =>
      have := ih (applyActivation (matVecMul p.W input (some p.b)) tanh) j (by simpa using h)
      simpa [allActivations, forwardFrom, List.getD_cons_succ] using this

theorem allActivations_lengths (ws : List LayerParams) (input : List ℝ) :
    (allActivations ws input).map List.length =
      input.length :: ws.map (fun p => p.W.length) := by
  suffices h : ∀ (ws : List LayerParams) (a : List ℝ),
      (forwardFrom ws a).map List.length = ws.map (fun p => p.W.length) by
    simp [allActivations, h]
  intro ws
  induction ws with
  | nil => intro a; rfl
  | cons p rest ih =>
    intro a
    simp [forwardFrom, ih, applyActivation, matVecMul_length]

/-! ### Helper lemmas: seed formula and decision -/

theorem enumFrom_foldl_seed (ls : List ℕ) : ∀ (k acc : ℕ),
    (List.enumFrom k ls).foldl (fun s p => s + (p.1 + 1) * p.2) acc
      = acc + ∑ i ∈ Finset.range ls.length, (k + i + 1) * ls.getD i 0 := by
  induction ls with
  | nil => intro k acc; simp
  | cons a l ih =>
    intro k acc
    have hsum : ∀ i : ℕ, (k + (i + 1) + 1) * l.getD i 0 = (k + 1 + i + 1) * l.getD i 0 := by
      intro i; ring_nf
    simp only [List.enumFrom_cons, List.foldl_cons]
    rw [ih (k + 1) (acc + (k + 1) * a), List.length_cons, Finset.sum_range_succ']
    simp only [List.getD_cons_succ, List.getD_cons_zero, hsum]
    ring

theorem sigmoid_strictMono {x y : ℝ} (h : x < y) : sigmoid x < sigmoid y := by
  have hexp : Real.exp (-y) < Real.exp (-x) := Real.exp_lt_exp.mpr (by linarith)
  have hx : (0 : ℝ) < 1 + Real.exp (-x) := by positivity
  have hy : (0 : ℝ) < 1 + Real.exp (-y) := by positivity
  unfold sigmoid
  exact one_div_lt_one_div_of_lt hy (by linarith)

theorem jsigmoid_some (x : ℝ) : jsigmoid (some x) = some (sigmoid x) := rfl

theorem jsigmoid_none : jsigmoid none = none := rfl

theorem landingDecide_pair (x y : ℝ) (a b : ℕ) :
    landingDecide [x, y] a b = if sigmoid x > sigmoid y then a else b := rfl

/-! ### Claim theorems -/

/-- C1: for every parameter list and input vector, the forward evaluation's
trace has element 0 equal to the input; for each transition `l` in order,
`trace[l+1]` is tanh applied elementwise to `z = W_l · trace[l] + b_l`, where
`z[i]` is the dot product of row `i` of `W_l` with `trace[l]` plus `b_l[i]`
(tanh for every transition, so no sigmoid on the last layer); and on topology
`[2,6,3,5,2]` with a 2-element input the trace has length 5 with element
lengths exactly `[2,6,3,5,2]`. -/
theorem c1_forward_trace :
    (∀ (ws : List LayerParams) (input : List ℝ),
        (allActivations ws input).getD 0 [] = input) ∧
    (∀ (ws : List LayerParams) (input : List ℝ) (l : ℕ), l < ws.length →
        (allActivations ws input).getD (l + 1) [] =
          applyActivation
            (matVecMul (ws.getD l ⟨[], []⟩).W ((allActivations ws input).getD l [])
              (some (ws.getD l ⟨[], []⟩).b)) tanh) ∧
    (∀ (W : List (List ℝ)) (x bv : List ℝ) (i : ℕ), i < W.length →
        (matVecMul W x (some bv)).getD i 0 = dot (W.getD i []) x + bv.getD i 0) ∧
    (∀ (s : ℕ) (x y : ℝ),
        (allActivations (genTransitions [2, 6, 3, 5, 2] s).1 [x, y]).map List.length
          = [2, 6, 3, 5, 2]) ∧
    (∀ (s : ℕ) (x y : ℝ),
        (allActivations (genTransitions [2, 6, 3, 5, 2] s).1 [x, y]).length = 5) := by
  refine ⟨fun _ _ => rfl, allActivations_step, matVecMul_getD, ?_, ?_⟩
  · intro s x y
    rw [allActivations_lengths, genTransitions_Wlengths]
    rfl
  · intro s x y
    rw [allActivations_length, genTransitions_length]
    rfl

/-- Witness for C1: the step equation at a concrete one-transition network and
the concrete trace shape for topology `[2,6,3,5,2]` at the derived seed 297. -/
theorem c1_forward_trace_witness :
    (0 < ([⟨[[(1 : ℝ)]], [0]⟩] : List LayerParams).length) ∧
    ((allActivations [⟨[[(1 : ℝ)]], [0]⟩] [2]).getD 1 [] =
      applyActivation
        (matVecMul (([⟨[[(1 : ℝ)]], [0]⟩] : List LayerParams).getD 0 ⟨[], []⟩).W
          ((allActivations [⟨[[(1 : ℝ)]], [0]⟩] [2]).getD 0 [])
          (some (([⟨[[(1 : ℝ)]], [0]⟩] : List LayerParams).getD 0 ⟨[], []⟩).b)) tanh) ∧
    ((allActivations (genTransitions [2, 6, 3, 5, 2] 297).1 [(0 : ℝ), 1]).map List.length
      = [2, 6, 3, 5, 2]) :=
  ⟨by simp, c1_forward_trace.2.1 [⟨[[(1 : ℝ)]], [0]⟩] [2] 0 (by simp),
    c1_forward_trace.2.2.2.1 297 0 1⟩

/-- C2: for every topology and seed, weight generation produces one
transition per adjacent pair of layer counts; for transition `l` the weight
matrix has `n_{l+1}` rows of length `n_l`, each entry equal to
`(rng() * 2 - 1) * sqrt(1 / n_l)`, the bias vector has `n_{l+1}` entries each
equal to `(rng() * 2 - 1) * 0.1`, and the PRNG draws are consumed in
row-major order over the whole weight matrix of a transition, then that
transition's bias vector, before the next transition (`drawsBefore` counts
the draws consumed by earlier transitions; `specDraw seed k` is the `k`-th
draw of `mulberry32(seed)`). -/
theorem c2_weight_generation (counts : List ℕ) (seed : ℕ) :
    ((genTransitions counts seed).1.length = counts.length - 1) ∧
    (∀ l, l + 1 < counts.length →
      ((genTransitions counts seed).1.getD l ⟨[], []⟩).W.length = counts.getD (l + 1) 0 ∧
      (∀ i, i < counts.getD (l + 1) 0 →
        (((genTransitions counts seed).1.getD l ⟨[], []⟩).W.getD i []).length
          = counts.getD l 0) ∧
      ((genTransitions counts seed).1.getD l ⟨[], []⟩).b.length = counts.getD (l + 1) 0 ∧
      (∀ i j, i < counts.getD (l + 1) 0 → j < counts.getD l 0 →
        (((genTransitions counts seed).1.getD l ⟨[], []⟩).W.getD i []).getD j 0
          = ((specDraw seed (drawsBefore counts l + i * counts.getD l 0 + j) * 2 - 1 : ℚ) : ℝ)
            * Real.sqrt (1 / (counts.getD l 0 : ℝ))) ∧
      (∀ i, i < counts.getD (l + 1) 0 →
        ((genTransitions counts seed).1.getD l ⟨[], []⟩).b.getD i 0
          = ((specDraw seed
                (drawsBefore counts l + counts.getD (l + 1) 0 * counts.getD l 0 + i) * 2 - 1
              : ℚ) : ℝ) * (1 / 10))) := by
  refine ⟨genTransitions_length counts seed, fun l h => ?_⟩
  rw [genTransitions_getD counts seed l h]
  refine ⟨genMat_length _ _ _ _, fun i hi => ?_, genList_length _ _ _,
    fun i j hi hj => ?_, fun i hi => ?_⟩
  · rw [genMat_row _ _ _ _ i hi, genList_length]
  · rw [genMat_row _ _ _ _ i hi, genList_getD _ _ _ j hj]
    have harg : seed + drawsBefore counts l * inc + i * counts.getD l 0 * inc + (j + 1) * inc
        = seed + (drawsBefore counts l + i * counts.getD l 0 + j + 1) * inc := by ring
    rw [harg]
    rfl
  · rw [genList_getD _ _ _ i hi]
    have harg : seed + (drawsBefore counts l + counts.getD (l + 1) 0 * counts.getD l 0) * inc
          + (i + 1) * inc
        = seed + (drawsBefore counts l + counts.getD (l + 1) 0 * counts.getD l 0 + i + 1)
          * inc := by ring
    rw [harg]
    rfl

/-- Witness for C2: on topology `[2,3]` with seed 7 there is one transition
whose row 2 has length 2. -/
theorem c2_weight_generation_witness :
    (0 + 1 < ([2, 3] : List ℕ).length) ∧ (2 < ([2, 3] : List ℕ).getD (0 + 1) 0) ∧
    ((((genTransitions [2, 3] 7).1.getD 0 ⟨[], []⟩).W.getD 2 []).length
      = ([2, 3] : List ℕ).getD 0 0) :=
  ⟨by decide, by decide,
    ((c2_weight_generation [2, 3] 7).2 0 (by decide)).2.1 2 (by decide)⟩

/-- C3: the seed used for weight generation equals
`input.length * 131 + Σ (index + 1) * layerSize` over the caller-supplied
layers, and for input length 2 and layers `[6,3,5,2]` the seed is 297. -/
theorem c3_seed_formula :
    (∀ (layers : List ℕ) (input : List ℝ),
        weightsImpl layers input
          = (genTransitions (input.length :: layers) (seedOf input.length layers)).1) ∧
    (∀ (n : ℕ) (ls : List ℕ),
        seedOf n ls = n * 131 + ∑ i ∈ Finset.range ls.length, (i + 1) * ls.getD i 0) ∧
    seedOf 2 [6, 3, 5, 2] = 297 := by
  refine ⟨fun _ _ => rfl, ?_, by decide⟩
  intro n ls
  show (List.enumFrom 0 ls).foldl (fun s p => s + (p.1 + 1) * p.2) (n * 131) = _
  rw [enumFrom_foldl_seed ls 0 (n * 131)]
  simp

/-- C4: the decision computes `sigmoid(finalLayer[0])` and
`sigmoid(finalLayer[1])`, returns `candidateA` on strictly greater, else
`candidateB`; a tie resolves to `candidateB`; `decide([1,-1],A,B) = A` and
`decide([-1,1],A,B) = B`. -/
theorem c4_decision (x y : ℝ) (a b : ℕ) :
    (sigmoid x > sigmoid y → landingDecide [x, y] a b = a) ∧
    (¬sigmoid x > sigmoid y → landingDecide [x, y] a b = b) ∧
    (sigmoid x = sigmoid y → landingDecide [x, y] a b = b) ∧
    landingDecide [(0 : ℝ), 0] a b = b ∧
    landingDecide [(1 : ℝ), -1] a b = a ∧
    landingDecide [(-1 : ℝ), 1] a b = b := by
  refine ⟨?_, ?_, ?_, ?_, ?_, ?_⟩
  · intro h; rw [landingDecide_pair, if_pos h]
  · intro h; rw [landingDecide_pair, if_neg h]
  · intro h; rw [landingDecide_pair, if_neg (by rw [h]; exact lt_irrefl _)]
  · rw [landingDecide_pair, if_neg (lt_irrefl _)]
  · rw [landingDecide_pair, if_pos (sigmoid_strictMono (by norm_num))]
  · rw [landingDecide_pair,
      if_neg (not_lt.mpr (le_of_lt (sigmoid_strictMono (by norm_num))))]

/-- Witness for C4: the tie case at `[0,0]` resolves to the second candidate. -/
theorem c4_decision_witness :
    (sigmoid 0 = sigmoid 0) ∧ landingDecide [(0 : ℝ), 0] 3 7 = 7 :=
  ⟨rfl, (c4_decision 0 0 3 7).2.2.1 rfl⟩

/-- C5: running weight generation twice with the same topology and seed
yields identical parameters (each invocation builds a fresh
`mulberry32(seed)` closure, so no state is shared across calls), and the
forward evaluation is deterministic: equal parameters and equal inputs give
equal activation traces. -/
theorem c5_determinism :
    (∀ (counts : List ℕ) (seed : ℕ),
        (generateTwice counts seed).1 = (generateTwice counts seed).2) ∧
    (∀ (counts counts' : List ℕ) (seed seed' : ℕ), counts = counts' → seed = seed' →
        genTransitions counts seed = genTransitions counts' seed') ∧
    (∀ (ws ws' : List LayerParams) (input input' : List ℝ), ws = ws' → input = input' →
        allActivations ws input = allActivations ws' input') :=
  ⟨fun _ _ => rfl,
    fun _ _ _ _ h1 h2 => by rw [h1, h2],
    fun _ _ _ _ h1 h2 => by rw [h1, h2]⟩

/-- Witness for C5: the two runs on topology `[2,3]` with seed 5 coincide. -/
theorem c5_determinism_witness :
    (generateTwice [2, 3] 5).1 = (generateTwice [2, 3] 5).2 ∧
    (([2, 3] : List ℕ) = [2, 3]) ∧
    genTransitions [2, 3] 5 = genTransitions [2, 3] 5 :=
  ⟨c5_determinism.1 [2, 3] 5, rfl, c5_determinism.2.1 [2, 3] [2, 3] 5 5 rfl rfl⟩

/-- C6 counterexample: the claim asserts that generation fails with
`InvalidTopology` on a topology of length < 2 or with a non-positive entry,
that evaluation fails with `ShapeMismatch` on an input-length mismatch, and
that the decision fails with `ShapeMismatch` when the final layer is not
2 elements.  The code has no failure path at all: on the invalid topology
`[0]` (length 1 and entry 0) generation returns the ordinary value `[]`; on a
1-element input against a first weight matrix with 2 columns the evaluation
still returns a full 2-element trace; and on an empty final layer the
decision returns `candidateB` normally. -/
theorem c6_counterexample :
    genTransitions [0] 5 = ([], 5) ∧
    (allActivations (genTransitions [2, 3] 5).1 [(1 : ℝ)]).length = 2 ∧
    jsDecide [] 3 7 = 7 := by
  refine ⟨rfl, ?_, ?_⟩
  · rw [allActivations_length, genTransitions_length]
    rfl
  · exact if_neg not_false

/-- C6 amended: the code performs no validation and has no error paths:
weight generation is total (a topology with fewer than two entries yields an
empty transition list, never an `InvalidTopology` error), forward evaluation
is total and always returns a trace of `transitions + 1` vectors regardless
of the input vector's length (never a `ShapeMismatch`), and the decision is
total and returns one of the two candidates whatever the final layer's
length (on a short vector the out-of-range reads make both scores NaN, the
strict comparison is false and `candidateB` is returned). -/
theorem c6_no_error_paths :
    (∀ (c s : ℕ), genTransitions [c] s = ([], s)) ∧
    (∀ (s : ℕ), genTransitions [] s = ([], s)) ∧
    (∀ (ws : List LayerParams) (input : List ℝ),
        (allActivations ws input).length = ws.length + 1) ∧
    (∀ (a b : ℕ), jsDecide [] a b = b) ∧
    (∀ (v : List (Option ℝ)) (a b : ℕ), jsDecide v a b = a ∨ jsDecide v a b = b) := by
  refine ⟨fun _ _ => rfl, fun _ => rfl, allActivations_length, fun a b => if_neg not_false,
    fun v a b => ?_⟩
  unfold jsDecide
  rcases Classical.em (jgt (jsigmoid (v.getD 0 none)) (jsigmoid (v.getD 1 none))) with h | h
  · exact Or.inl (if_pos h)
  · exact Or.inr (if_neg h)

/-- C7: the seed is derived deterministically from the topology and the
two input identifiers (identical inputs give identical seed and identical
parameters), and for topology `[2,6,3,5,2]` the seeds derived from inputs
`(0,1)` and `(0,2)` differ whenever the §6 formula yields different values
for them — the formula reads only `input.length`, so it yields 297 for both
pairs and the difference requirement is vacuous. -/
theorem c7_seed_deterministic :
    (∀ (layers : List ℕ) (input input' : List ℝ), input = input' →
        seedOf input.length layers = seedOf input'.length layers ∧
        weightsImpl layers input = weightsImpl layers input') ∧
    (seedOf ([(0 : ℝ), 1].length) [6, 3, 5, 2] = 297 ∧
      seedOf ([(0 : ℝ), 2].length) [6, 3, 5, 2] = 297) ∧
    (2 * 131 + (1 * 6 + 2 * 3 + 3 * 5 + 4 * 2) ≠ 2 * 131 + (1 * 6 + 2 * 3 + 3 * 5 + 4 * 2) →
        seedOf ([(0 : ℝ), 1].length) [6, 3, 5, 2] ≠ seedOf ([(0 : ℝ), 2].length) [6, 3, 5, 2]) := by
  refine ⟨fun layers input input' h => by rw [h]; exact ⟨rfl, rfl⟩, ⟨by decide, by decide⟩,
    fun h => absurd rfl h⟩

/-- Witness for C7: equal input vectors `[0,1]` give equal seed and equal
parameters. -/
theorem c7_seed_deterministic_witness :
    (([(0 : ℝ), 1] : List ℝ) = [(0 : ℝ), 1]) ∧
    (seedOf ([(0 : ℝ), 1].length) [6, 3, 5, 2] = seedOf ([(0 : ℝ), 1].length) [6, 3, 5, 2] ∧
      weightsImpl [6, 3, 5, 2] [(0 : ℝ), 1] = weightsImpl [6, 3, 5, 2] [(0 : ℝ), 1]) :=
  ⟨rfl, c7_seed_deterministic.1 [6, 3, 5, 2] [(0 : ℝ), 1] [(0 : ℝ), 1] rfl⟩

/-- C8: with the caller's input array held in a store behind a reference,
the store that comes back from the forward evaluation is unchanged — in
particular the input array itself is unchanged — and element 0 of the
returned trace is (a copy of) the input's value. -/
theorem c8_input_not_mutated (ws : List LayerParams) (σ : Store) (r : ℕ) :
    (allActivationsStore ws σ r).2 = σ ∧
    (allActivationsStore ws σ r).2 r = σ r ∧
    ((allActivationsStore ws σ r).1).getD 0 [] = σ r :=
  ⟨rfl, rfl, rfl⟩

/-- C9: the generated parameters depend only on the input vector's length
and the layer-size list, never on the input vector's values. -/
theorem c9_params_ignore_input_values (layers : List ℕ) (v w : List ℝ)
    (h : v.length = w.length) :
    weightsImpl layers v = weightsImpl layers w := by
  unfold weightsImpl
  rw [h]

/-- Witness for C9: two different team-identifier pairs of equal length give
identical parameters. -/
theorem c9_params_ignore_input_values_witness :
    (([(0 : ℝ), 1] : List ℝ).length = ([(3 : ℝ), 4] : List ℝ).length) ∧
    weightsImpl [6, 3, 5, 2] [(0 : ℝ), 1] = weightsImpl [6, 3, 5, 2] [(3 : ℝ), 4] :=
  ⟨rfl, c9_params_ignore_input_values [6, 3, 5, 2] [(0 : ℝ), 1] [(3 : ℝ), 4] rfl⟩

/-- C10: the winner computation is total over NaN-propagating JS numbers
(`none` models NaN): it always returns one of the two supplied identifiers;
whenever the strict comparison of the sigmoid scores does not hold —
including when either score is NaN, since comparisons involving NaN are
false — the second identifier is returned. -/
theorem c10_decision_total (v : List (Option ℝ)) (a b : ℕ) :
    (jsDecide v a b = a ∨ jsDecide v a b = b) ∧
    (¬jgt (jsigmoid (v.getD 0 none)) (jsigmoid (v.getD 1 none)) → jsDecide v a b = b) ∧
    (∀ (y : Option ℝ), ¬jgt none y ∧ ¬jgt y none) ∧
    jsigmoid none = none ∧
    jsDecide [none, some 0] a b = b ∧
    jsDecide [some 0, none] a b = b := by
  refine ⟨?_, fun h => if_neg h, fun y => ?_, rfl, if_neg not_false, if_neg not_false⟩
  · unfold jsDecide
    rcases Classical.em (jgt (jsigmoid (v.getD 0 none)) (jsigmoid (v.getD 1 none))) with h | h
    · exact Or.inl (if_pos h)
    · exact Or.inr (if_neg h)
  · cases y <;> exact ⟨fun h => h, fun h => h⟩

/-- Witness for C10: on the empty final layer both scores are NaN, the
comparison fails, and the second identifier is returned. -/
theorem c10_decision_total_witness :
    (¬jgt (jsigmoid (([] : List (Option ℝ)).getD 0 none))
        (jsigmoid (([] : List (Option ℝ)).getD 1 none))) ∧
    jsDecide [] 1 2 = 2 :=
  ⟨not_false, (c10_decision_total [] 1 2).2.1 not_false⟩

end Pilsen
